import Mathlib

/-!
Base64 message relay (Client-Server/server_H.c, Client-Server/client_H.c)

A shallow embedding of the codec, the session registry, the TCP session loop,
the UDP datagram handler and the client's frame construction.

Conventions of the embedding

* a C `char` / `unsigned char` buffer is a `List Nat` of byte values; the cast
  `(unsigned char)data[i]` is `% 256`;
* a `char` array holding a C string is the list of all its bytes, the string
  being the bytes before the first `0` (`cstr`, `strlen`);
* buffer lengths are natural numbers: a buffer that exists in memory never makes
  `size_t` arithmetic wrap upwards.  Where the source subtracts from a length
  that can be zero the result is an integer, a value below 0 standing for the
  wrapped `size_t` value `2 ^ 64 + v` (the index of `char_at`, `*output_length`
  in `base64_decode`);
* `malloc` returns `NULL` for a wrapped size, which is `2 ^ 64 - 2` bytes or
  more, and a buffer for any other positive size (memory exhaustion is outside
  the model); what `malloc(0)` returns is implementation-defined in C and is a
  field of `Env`;
* a client pointer `client_t *` is a `Nat`, `NULL` is `none`.
-/

namespace Relay

/-! ## Constants and data model -/

def MAX_CLIENTS : Nat := 10

def MAX_BUFFER_SIZE : Nat := 1024

def MESSAGE_SIZE : Nat := 256

/-- The wire frame `Message`: `int type` (1 DATA, 2 ACK, 3 TERMINATE) and the
`char content[MESSAGE_SIZE]` array. -/
structure Message where
  type : Int
  content : List Nat
deriving DecidableEq, Repr

/-- What the codec observes beyond its arguments: the two bytes stored just
before the `data` buffer (read as `data[input_length - 1]` and
`data[input_length - 2]` when `input_length` is 0), and whether `malloc(0)`
returns `NULL`. -/
structure Env where
  before1 : Nat
  before2 : Nat
  mallocZeroNull : Bool
deriving DecidableEq, Repr

/-- The bytes of a string literal (ASCII codes). -/
def str (s : String) : List Nat := s.toList.map Char.toNat

/-- The C string stored in a `char` array: the bytes before the first `0`. -/
def cstr (a : List Nat) : List Nat := a.takeWhile (fun c => c != 0)

/-- `strlen(a)`: the number of bytes before the first `0`; `none` when the array
holds no `0`, in which case the scan runs past the end of the array. -/
def strlen (a : List Nat) : Option Nat :=
  if 0 ∈ a then some (cstr a).length else none

/-- `strcpy(dst, src)` for a string literal `src`: the bytes of `src`, the
terminator, and the bytes of `dst` that are not overwritten. -/
def strcpy (dst src : List Nat) : List Nat :=
  src ++ [0] ++ dst.drop (src.length + 1)

/-- `strncpy(dst, src, n)`: the first `n` bytes of `src`, zero-filled up to `n`
bytes when `src` is shorter, and the bytes of `dst` past `n`. -/
def strncpy (dst src : List Nat) (n : Nat) : List Nat :=
  src.take n ++ List.replicate (n - src.length) 0 ++ dst.drop n

/-- `malloc(size)`: `true` when a non-`NULL` pointer is returned.  A size below
0 stands for a wrapped `size_t` value, `2 ^ 64 - 2` bytes or more, which no
allocation satisfies. -/
def malloc (env : Env) (size : Int) : Bool :=
  if size < 0 then false
  else if size = 0 then !env.mallocZeroNull
  else true

/-- `data[i]` where the index was computed as `input_length - 1` or
`input_length - 2` in `size_t`: a wrapped index addresses the bytes in front of
the buffer, written here as the negative offsets -1 and -2. -/
def char_at (env : Env) (data : List Nat) (i : Int) : Nat :=
  if i = -1 then env.before1
  else if i = -2 then env.before2
  else data.getD i.toNat 0

/-! ## Base64 codec -/

/-- `static const char base64_chars[]`. -/
def base64_chars : List Nat :=
  str "ABCDEFGHIJKLMNOPQRSTUVWXYZabcdefghijklmnopqrstuvwxyz0123456789+/"

/-- `size_t mod_table[] = {0, 2, 1}`. -/
def mod_table : List Nat := [0, 2, 1]

/-- The four `encoded_data[j++] = base64_chars[(triple >> s) & 0x3F]` stores of
one iteration of the encoding loop, for the three octets read. -/
def encode_group (octet_a octet_b octet_c : Nat) : List Nat :=
  let triple := ((octet_a <<< 16) + (octet_b <<< 8) + octet_c) % 2 ^ 32
  [base64_chars.getD ((triple >>> 18) &&& 0x3F) 0,
   base64_chars.getD ((triple >>> 12) &&& 0x3F) 0,
   base64_chars.getD ((triple >>> 6) &&& 0x3F) 0,
   base64_chars.getD (triple &&& 0x3F) 0]

/-- The first loop of `base64_encode`: each iteration consumes up to three bytes
(`i < input_length ? (unsigned char)data[i++] : 0`) and appends four
characters. -/
def encode_loop : List Nat → List Nat
  | [] => []
  | [a] => encode_group (a % 256) 0 0
  | [a, b] => encode_group (a % 256) (b % 256) 0
  | a :: b :: c :: rest => encode_group (a % 256) (b % 256) (c % 256) ++ encode_loop rest

/-- `base64_encode(data, input_length)`: the text without its terminator, `none`
for `NULL`. -/
def base64_encode (env : Env) (data : List Nat) : Option (List Nat) :=
  let input_length := data.length
  let output_length := 4 * ((input_length + 2) / 3)
  if malloc env ((output_length : Int) + 1) = false then none
  else
    let encoded_data := encode_loop data
    -- for (i = 0; i < mod_table[input_length % 3]; i++) encoded_data[output_length - 1 - i] = '='
    let encoded_data :=
      (List.range (mod_table.getD (input_length % 3) 0)).foldl
        (fun buf i => buf.set (output_length - 1 - i) 61) encoded_data
    some encoded_data

/-- `get_index(c)`: the position of `c` in the alphabet, -1 for padding or any
other character. -/
def get_index (c : Nat) : Int :=
  if 65 ≤ c ∧ c ≤ 90 then (c : Int) - 65            -- 'A' .. 'Z'
  else if 97 ≤ c ∧ c ≤ 122 then (c : Int) - 97 + 26   -- 'a' .. 'z'
  else if 48 ≤ c ∧ c ≤ 57 then (c : Int) - 48 + 52    -- '0' .. '9'
  else if c = 43 then 62                              -- '+'
  else if c = 47 then 63                              -- '/'
  else -1

/-- The value of `uint32_t triple` after
`triple = (index_a << 18) + (index_b << 12); if (index_c != -1) triple += (index_c << 6);
if (index_d != -1) triple += index_d;`. -/
def decode_triple (index_a index_b index_c index_d : Int) : Nat :=
  let triple : Nat := ((index_a * 2 ^ 18 + index_b * 2 ^ 12) % 2 ^ 32).toNat
  let triple : Nat :=
    if index_c ≠ -1 then (((triple : Int) + index_c * 2 ^ 6) % 2 ^ 32).toNat else triple
  let triple : Nat :=
    if index_d ≠ -1 then (((triple : Int) + index_d) % 2 ^ 32).toNat else triple
  triple

/-- The guarded store `if (j < *output_length) decoded_data[j++] = byte;`, where
`j` is the number of bytes stored so far. -/
def store_byte (output_length : Nat) (decoded_data : List Nat) (byte : Nat) : List Nat :=
  if decoded_data.length < output_length then decoded_data ++ [byte] else decoded_data

/-- The decoding loop of `base64_decode`: each iteration reads four characters;
`decoded_data` holds the `j` bytes stored so far.  The loop is entered with a
length that is a multiple of 4, so the text runs out at a group boundary. -/
def decode_loop (output_length : Nat) : List Nat → List Nat → Option (List Nat)
  | a :: b :: c :: d :: rest, decoded_data =>
    let index_a := get_index a
    let index_b := get_index b
    let index_c := get_index c
    let index_d := get_index d
    if index_a = -1 ∨ index_b = -1 then none
    else
      let triple := decode_triple index_a index_b index_c index_d
      let decoded_data := store_byte output_length decoded_data ((triple >>> 16) &&& 0xFF)
      let decoded_data := store_byte output_length decoded_data ((triple >>> 8) &&& 0xFF)
      let decoded_data := store_byte output_length decoded_data (triple &&& 0xFF)
      decode_loop output_length rest decoded_data
  | _, decoded_data => some decoded_data

/-- `base64_decode(data, input_length, output_length)`: `none` for `NULL`,
otherwise the bytes stored in `decoded_data` and the value left in
`*output_length`. -/
def base64_decode (env : Env) (data : List Nat) : Option (List Nat × Nat) :=
  let input_length := data.length
  if input_length % 4 ≠ 0 then none
  else
    let output_length : Int := ((input_length / 4 * 3 : Nat) : Int)
    -- if (data[input_length - 1] == '=') (*output_length)--;
    let output_length : Int :=
      if char_at env data ((input_length : Int) - 1) = 61 then output_length - 1
      else output_length
    -- if (data[input_length - 2] == '=') (*output_length)--;
    let output_length : Int :=
      if char_at env data ((input_length : Int) - 2) = 61 then output_length - 1
      else output_length
    if malloc env output_length = false then none
    else
      match decode_loop output_length.toNat data [] with
      | none => none
      | some decoded_data => some (decoded_data, output_length.toNat)


/-! ## Session registry -/

/-- The loop of `add_client` from index `i` with the given number of iterations
left: the first `NULL` slot receives `client`, then `break`. -/
def add_client_loop (client : Nat) (clients : List (Option Nat)) (i : Nat) :
    Nat → List (Option Nat)
  | 0 => clients
  | n + 1 =>
    if clients[i]? = some none then clients.set i (some client)
    else add_client_loop client clients (i + 1) n

/-- `add_client(client)` on the global array `clients[MAX_CLIENTS]`. -/
def add_client (client : Nat) (clients : List (Option Nat)) : List (Option Nat) :=
  add_client_loop client clients 0 MAX_CLIENTS

/-- The loop of `remove_client` from index `i` with the given number of
iterations left: the first slot equal to `client` is set to `NULL`, then
`break`. -/
def remove_client_loop (client : Nat) (clients : List (Option Nat)) (i : Nat) :
    Nat → List (Option Nat)
  | 0 => clients
  | n + 1 =>
    if clients[i]? = some (some client) then clients.set i none
    else remove_client_loop client clients (i + 1) n

/-- `remove_client(client)` on the global array `clients[MAX_CLIENTS]`. -/
def remove_client (client : Nat) (clients : List (Option Nat)) : List (Option Nat) :=
  remove_client_loop client clients 0 MAX_CLIENTS

/-! ## TCP session -/

/-- The text copied into every acknowledgment. -/
def ack_text : List Nat := str "Message received successfully"

/-- Outcome of one iteration of the receive loop: the frames sent on the
connection, the local `response` afterwards, and whether the loop was left by
`break`. -/
structure Iteration where
  sent : List Message
  response : Message
  left : Bool
deriving DecidableEq, Repr

/-- The body of the `while` loop of `handle_tcp_client` for the frame in
`message`; `response` is the local variable as the previous iterations left it.
`none` when `strlen` scans past the end of `message.content`. -/
def tcp_iteration (env : Env) (response message : Message) : Option Iteration :=
  if message.type = 1 then
    match strlen message.content with
    | none => none
    | some n =>
      match base64_decode env (message.content.take n) with
      | some _ =>
        let response : Message := { type := 2, content := strcpy response.content ack_text }
        some { sent := [response], response := response, left := false }
      | none => some { sent := [], response := response, left := false }
  else if message.type = 3 then some { sent := [], response := response, left := true }
  else some { sent := [], response := response, left := false }

/-- The `while ((bytes_received = recv(...)) > 0)` loop of `handle_tcp_client`
over the successive results of `recv` (return value and content of `message`).
`sent` collects the frames sent so far.  When the results run out the worker is
blocked in `recv` and the loop has not been left (`left = false`). -/
def tcp_loop (env : Env) : List (Int × Message) → Message → List Message → Option Iteration
  | [], response, sent => some { sent := sent, response := response, left := false }
  | (bytes_received, message) :: rest, response, sent =>
    if bytes_received > 0 then
      match tcp_iteration env response message with
      | none => none
      | some it =>
        if it.left then some { sent := sent ++ it.sent, response := it.response, left := true }
        else tcp_loop env rest it.response (sent ++ it.sent)
    else some { sent := sent, response := response, left := true }

/-- State of a worker: frames sent, whether it reached the cleanup after the
loop (socket closed, CLOSED), and the registry. -/
structure Session where
  sent : List Message
  closed : Bool
  clients : List (Option Nat)
deriving DecidableEq, Repr

/-- `handle_tcp_client(client)`: the receive loop, then, once the loop is left,
`close`, `remove_client(client)` and `free`. -/
def handle_tcp_client (env : Env) (client : Nat) (clients : List (Option Nat))
    (response : Message) (recvs : List (Int × Message)) : Option Session :=
  match tcp_loop env recvs response [] with
  | none => none
  | some it =>
    if it.left then some { sent := it.sent, closed := true, clients := remove_client client clients }
    else some { sent := it.sent, closed := false, clients := clients }

/-! ## UDP datagram handler -/

/-- `handle_udp_message(client_addr)` for one result of `recvfrom` (return
value, content of `message`, captured sender address): the datagrams sent, each
with its destination.  `none` when `strlen` scans past the end of
`message.content`. -/
def handle_udp_message (env : Env) (response : Message) (bytes_received : Int)
    (message : Message) (client_addr : Nat) : Option (List (Nat × Message)) :=
  if bytes_received > 0 then
    if message.type = 1 then
      match strlen message.content with
      | none => none
      | some n =>
        match base64_decode env (message.content.take n) with
        | some _ =>
          let response : Message := { type := 2, content := strcpy response.content ack_text }
          some [(client_addr, response)]
        | none => some []
    else if message.type = 3 then some []
    else some []
  else some []

/-! ## Client -/

/-- One pass of the input loop of the client's `main`, up to `send_message`:
`buffer` holds the bytes `fgets` stored in front of the terminator it appends
(a `0` byte read from the input is among them), `message` is the local variable
as earlier passes left it.  The result is the frame handed to `send_message`,
`none` when `base64_encode` returned `NULL`. -/
def client_frame (env : Env) (message : Message) (buffer : List Nat) : Option Message :=
  -- size_t len = strlen(buffer);
  let len := (cstr buffer).length
  -- if (len > 0 && buffer[len-1] == '\n') { buffer[len-1] = '\0'; len--; }
  let newline : Bool := decide (len > 0 ∧ buffer.getD (len - 1) 0 = 10)
  let buffer := if newline then buffer.set (len - 1) 0 else buffer
  let len := if newline then len - 1 else len
  -- if (strcmp(buffer, "quit") == 0)
  if cstr buffer = str "quit" then
    some { type := 3, content := strcpy message.content (str "TERMINATE") }
  else
    -- base64_encode((unsigned char*)buffer, len)
    match base64_encode env (buffer.take len) with
    | none => none
    | some encoded =>
      let content := strncpy message.content encoded (MESSAGE_SIZE - 1)
      let content := content.set (MESSAGE_SIZE - 1) 0
      some { type := 1, content := content }

/-! ## Notions used to state the properties -/

/-- The number of `=` characters at the end of a text. -/
def trailing_padding (data : List Nat) : Nat :=
  (data.reverse.takeWhile (fun c => c == 61)).length

/-- The acknowledgment built in `response` by `response.type = 2;
strcpy(response.content, "Message received successfully");`. -/
def ack_frame (response : Message) : Message :=
  { type := 2, content := strcpy response.content ack_text }

/-- A message buffer of `MESSAGE_SIZE` zero bytes. -/
def zero_message : Message := { type := 0, content := List.replicate MESSAGE_SIZE 0 }

/-- A frame of the given kind whose content field holds the given text,
zero-filled. -/
def frame_of (type : Int) (text : List Nat) : Message :=
  { type := type, content := text ++ List.replicate (MESSAGE_SIZE - text.length) 0 }

/-- Closed form of the text built by `base64_encode` (a proof device, not
source code): every full group of three bytes gives four characters, a final
group of two bytes gives three characters and one `=`, a final single byte gives
two characters and `==`. -/
def padded_groups : List Nat → List Nat
  | [] => []
  | [a] => (encode_group (a % 256) 0 0).take 2 ++ [61, 61]
  | [a, b] => (encode_group (a % 256) (b % 256) 0).take 3 ++ [61]
  | a :: b :: c :: rest => encode_group (a % 256) (b % 256) (c % 256) ++ padded_groups rest


/-! ## Codec lemmas -/

theorem base64_chars_eq : base64_chars =
    [65, 66, 67, 68, 69, 70, 71, 72, 73, 74, 75, 76, 77, 78, 79, 80, 81, 82, 83, 84, 85, 86, 87,
     88, 89, 90, 97, 98, 99, 100, 101, 102, 103, 104, 105, 106, 107, 108, 109, 110, 111, 112, 113,
     114, 115, 116, 117, 118, 119, 120, 121, 122, 48, 49, 50, 51, 52, 53, 54, 55, 56, 57, 43, 47] := by
  decide

theorem get_index_base64_chars : ∀ k, k < 64 → get_index (base64_chars.getD k 0) = (k : Int) := by
  decide

theorem base64_chars_ne : ∀ k, k < 64 →
    base64_chars.getD k 0 ≠ 61 ∧ base64_chars.getD k 0 ≠ 0 ∧ base64_chars.getD k 0 ∈ base64_chars := by
  decide

theorem and_63 (x : Nat) : x &&& 0x3F = x % 64 := by
  have h := Nat.and_pow_two_sub_one_eq_mod x 6
  simpa using h

theorem and_255 (x : Nat) : x &&& 0xFF = x % 256 := by
  have h := Nat.and_pow_two_sub_one_eq_mod x 8
  simpa using h

theorem encode_group_eq (a b c : Nat) (ha : a < 256) (hb : b < 256) (hc : c < 256) :
    encode_group a b c =
      [base64_chars.getD (a / 4) 0, base64_chars.getD (a % 4 * 16 + b / 16) 0,
       base64_chars.getD (b % 16 * 4 + c / 64) 0, base64_chars.getD (c % 64) 0] := by
  simp only [encode_group, and_63, Nat.shiftRight_eq_div_pow, Nat.shiftLeft_eq]
  have e1 : (a * 2 ^ 16 + b * 2 ^ 8 + c) % 2 ^ 32 / 2 ^ 18 % 64 = a / 4 := by omega
  have e2 : (a * 2 ^ 16 + b * 2 ^ 8 + c) % 2 ^ 32 / 2 ^ 12 % 64 = a % 4 * 16 + b / 16 := by omega
  have e3 : (a * 2 ^ 16 + b * 2 ^ 8 + c) % 2 ^ 32 / 2 ^ 6 % 64 = b % 16 * 4 + c / 64 := by omega
  have e4 : (a * 2 ^ 16 + b * 2 ^ 8 + c) % 2 ^ 32 % 64 = c % 64 := by omega
  rw [e1, e2, e3, e4]

theorem store_three (output_length : Nat) (decoded : List Nat) (x y z : Nat)
    (h : decoded.length + 3 ≤ output_length) :
    store_byte output_length (store_byte output_length (store_byte output_length decoded x) y) z
      = decoded ++ [x, y, z] := by
  have h1 : decoded.length < output_length := by omega
  have h2 : decoded.length + 1 < output_length := by omega
  have h3 : decoded.length + 1 + 1 < output_length := by omega
  simp [store_byte, h1, h2, h3]

theorem store_two (output_length : Nat) (decoded : List Nat) (x y z : Nat)
    (h : decoded.length + 2 = output_length) :
    store_byte output_length (store_byte output_length (store_byte output_length decoded x) y) z
      = decoded ++ [x, y] := by
  have h1 : decoded.length < output_length := by omega
  have h2 : decoded.length + 1 < output_length := by omega
  have h3 : ¬ decoded.length + 1 + 1 < output_length := by omega
  simp [store_byte, h1, h2, h3]

theorem store_one (output_length : Nat) (decoded : List Nat) (x y z : Nat)
    (h : decoded.length + 1 = output_length) :
    store_byte output_length (store_byte output_length (store_byte output_length decoded x) y) z
      = decoded ++ [x] := by
  have h1 : decoded.length < output_length := by omega
  have h2 : ¬ decoded.length + 1 < output_length := by omega
  simp [store_byte, h1, h2]

theorem decode_triple_full (k0 k1 k2 k3 : Nat) (h0 : k0 < 64) (h1 : k1 < 64) (h2 : k2 < 64)
    (h3 : k3 < 64) :
    decode_triple k0 k1 k2 k3 = k0 * 262144 + k1 * 4096 + k2 * 64 + k3 := by
  unfold decode_triple
  simp only []
  split_ifs <;> omega

theorem decode_triple_pad1 (k0 k1 k2 : Nat) (h0 : k0 < 64) (h1 : k1 < 64) (h2 : k2 < 64) :
    decode_triple k0 k1 k2 (-1) = k0 * 262144 + k1 * 4096 + k2 * 64 := by
  unfold decode_triple
  simp only []
  split_ifs <;> omega

theorem decode_triple_pad2 (k0 k1 : Nat) (h0 : k0 < 64) (h1 : k1 < 64) :
    decode_triple k0 k1 (-1) (-1) = k0 * 262144 + k1 * 4096 := by
  unfold decode_triple
  simp only []
  split_ifs <;> omega

theorem get_index_pad : get_index 61 = -1 := by decide

theorem decode_loop_group (output_length a b c : Nat) (rest decoded : List Nat)
    (ha : a < 256) (hb : b < 256) (hc : c < 256) (hroom : decoded.length + 3 ≤ output_length) :
    decode_loop output_length (encode_group a b c ++ rest) decoded =
      decode_loop output_length rest (decoded ++ [a, b, c]) := by
  have h0 := get_index_base64_chars (a / 4) (by omega)
  have h1 := get_index_base64_chars (a % 4 * 16 + b / 16) (by omega)
  have h2 := get_index_base64_chars (b % 16 * 4 + c / 64) (by omega)
  have h3 := get_index_base64_chars (c % 64) (by omega)
  rw [encode_group_eq a b c ha hb hc]
  simp only [List.cons_append, List.nil_append, decode_loop, h0, h1, h2, h3]
  rw [if_neg (by omega), decode_triple_full _ _ _ _ (by omega) (by omega) (by omega) (by omega),
    store_three _ _ _ _ _ hroom]
  simp only [and_255, Nat.shiftRight_eq_div_pow]
  have e1 : (a / 4 * 262144 + (a % 4 * 16 + b / 16) * 4096 + (b % 16 * 4 + c / 64) * 64 + c % 64)
      / 2 ^ 16 % 256 = a := by omega
  have e2 : (a / 4 * 262144 + (a % 4 * 16 + b / 16) * 4096 + (b % 16 * 4 + c / 64) * 64 + c % 64)
      / 2 ^ 8 % 256 = b := by omega
  have e3 : (a / 4 * 262144 + (a % 4 * 16 + b / 16) * 4096 + (b % 16 * 4 + c / 64) * 64 + c % 64)
      % 256 = c := by omega
  rw [e1, e2, e3]
  rfl

theorem decode_loop_last2 (output_length a b : Nat) (decoded : List Nat)
    (ha : a < 256) (hb : b < 256) (hroom : decoded.length + 2 = output_length) :
    decode_loop output_length ((encode_group a b 0).take 3 ++ [61]) decoded =
      some (decoded ++ [a, b]) := by
  have h0 := get_index_base64_chars (a / 4) (by omega)
  have h1 := get_index_base64_chars (a % 4 * 16 + b / 16) (by omega)
  have h2 := get_index_base64_chars (b % 16 * 4 + 0 / 64) (by omega)
  rw [encode_group_eq a b 0 ha hb (by omega)]
  simp only [List.take, List.cons_append, List.nil_append, decode_loop, h0, h1, h2, get_index_pad]
  rw [if_neg (by omega), decode_triple_pad1 _ _ _ (by omega) (by omega) (by omega),
    store_two _ _ _ _ _ hroom]
  simp only [and_255, Nat.shiftRight_eq_div_pow]
  have e1 : (a / 4 * 262144 + (a % 4 * 16 + b / 16) * 4096 + (b % 16 * 4 + 0 / 64) * 64)
      / 2 ^ 16 % 256 = a := by omega
  have e2 : (a / 4 * 262144 + (a % 4 * 16 + b / 16) * 4096 + (b % 16 * 4 + 0 / 64) * 64)
      / 2 ^ 8 % 256 = b := by omega
  rw [e1, e2]

theorem decode_loop_last1 (output_length a : Nat) (decoded : List Nat)
    (ha : a < 256) (hroom : decoded.length + 1 = output_length) :
    decode_loop output_length ((encode_group a 0 0).take 2 ++ [61, 61]) decoded =
      some (decoded ++ [a]) := by
  have h0 := get_index_base64_chars (a / 4) (by omega)
  have h1 := get_index_base64_chars (a % 4 * 16 + 0 / 16) (by omega)
  rw [encode_group_eq a 0 0 ha (by omega) (by omega)]
  simp only [List.take, List.cons_append, List.nil_append, decode_loop, h0, h1, get_index_pad]
  rw [if_neg (by omega), decode_triple_pad2 _ _ (by omega) (by omega),
    store_one _ _ _ _ _ hroom]
  simp only [and_255, Nat.shiftRight_eq_div_pow]
  have e1 : (a / 4 * 262144 + (a % 4 * 16 + 0 / 16) * 4096) / 2 ^ 16 % 256 = a := by omega
  rw [e1]

theorem encode_group_length (a b c : Nat) : (encode_group a b c).length = 4 := rfl

theorem encode_loop_length (data : List Nat) :
    (encode_loop data).length = 4 * ((data.length + 2) / 3) := by
  induction data using encode_loop.induct with
  | case1 => rfl
  | case2 a => simp [encode_loop, encode_group_length]
  | case3 a b => simp [encode_loop, encode_group_length]
  | case4 a b c rest ih =>
    simp only [encode_loop, List.length_append, encode_group_length, ih, List.length_cons]
    omega

theorem padded_groups_length (data : List Nat) :
    (padded_groups data).length = 4 * ((data.length + 2) / 3) := by
  induction data using padded_groups.induct with
  | case1 => rfl
  | case2 a => simp [padded_groups, encode_group]
  | case3 a b => simp [padded_groups, encode_group]
  | case4 a b c rest ih =>
    simp only [padded_groups, List.length_append, encode_group_length, ih, List.length_cons]
    omega

theorem foldl_set_append (g tail : List Nat) (L k : Nat) (hk : k ≤ L) :
    (List.range k).foldl (fun buf i => buf.set (L + g.length - 1 - i) 61) (g ++ tail)
      = g ++ (List.range k).foldl (fun buf i => buf.set (L - 1 - i) 61) tail := by
  induction k with
  | zero => rfl
  | succ k ih =>
    rw [List.range_succ, List.foldl_append, List.foldl_append, ih (by omega)]
    simp only [List.foldl_cons, List.foldl_nil]
    rw [List.set_append_right _ _ (by omega)]
    congr 2
    omega

/-- The padding loop of `base64_encode` on the output of the first loop. -/
theorem pad_encode_loop (data : List Nat) :
    (List.range (mod_table.getD (data.length % 3) 0)).foldl
        (fun buf i => buf.set (4 * ((data.length + 2) / 3) - 1 - i) 61) (encode_loop data)
      = padded_groups data := by
  induction data using encode_loop.induct with
  | case1 => rfl
  | case2 a => simp [encode_loop, padded_groups, encode_group, mod_table, List.range_succ]
  | case3 a b => simp [encode_loop, padded_groups, encode_group, mod_table, List.range_succ]
  | case4 a b c rest ih =>
    have hmod : (a :: b :: c :: rest).length % 3 = rest.length % 3 := by
      simp only [List.length_cons]; omega
    have hlen : 4 * (((a :: b :: c :: rest).length + 2) / 3)
        = 4 * ((rest.length + 2) / 3) + (encode_group (a % 256) (b % 256) (c % 256)).length := by
      simp only [List.length_cons, encode_group_length]; omega
    rw [hmod, hlen, encode_loop, padded_groups, ← ih]
    have hk : mod_table.getD (rest.length % 3) 0 ≤ 4 * ((rest.length + 2) / 3) := by
      have h3 : rest.length % 3 = 0 ∨ rest.length % 3 = 1 ∨ rest.length % 3 = 2 := by omega
      rcases h3 with h | h | h <;> rw [h] <;> simp [mod_table] <;> omega
    exact foldl_set_append _ _ _ _ hk

theorem base64_encode_eq (env : Env) (data : List Nat) :
    base64_encode env data = some (padded_groups data) := by
  have hm : malloc env (((4 * ((data.length + 2) / 3) : Nat) : Int) + 1) = true := by
    unfold malloc
    rw [if_neg (by omega), if_neg (by omega)]
  unfold base64_encode
  simp only []
  rw [if_neg (by rw [hm]; decide), pad_encode_loop]

theorem decode_loop_padded (data : List Nat) (hbytes : ∀ x ∈ data, x < 256) :
    ∀ decoded : List Nat,
      decode_loop (decoded.length + data.length) (padded_groups data) decoded
        = some (decoded ++ data) := by
  induction data using padded_groups.induct with
  | case1 => intro decoded; simp [padded_groups, decode_loop]
  | case2 a =>
    intro decoded
    have ha : a < 256 := hbytes a (by simp)
    rw [padded_groups, Nat.mod_eq_of_lt ha]
    exact decode_loop_last1 _ a decoded ha rfl
  | case3 a b =>
    intro decoded
    have ha : a < 256 := hbytes a (by simp)
    have hb : b < 256 := hbytes b (by simp)
    rw [padded_groups, Nat.mod_eq_of_lt ha, Nat.mod_eq_of_lt hb]
    exact decode_loop_last2 _ a b decoded ha hb rfl
  | case4 a b c rest ih =>
    intro decoded
    have ha : a < 256 := hbytes a (by simp)
    have hb : b < 256 := hbytes b (by simp)
    have hc : c < 256 := hbytes c (by simp)
    have hrest : ∀ x ∈ rest, x < 256 := fun x hx => hbytes x (by simp [hx])
    rw [padded_groups, Nat.mod_eq_of_lt ha, Nat.mod_eq_of_lt hb, Nat.mod_eq_of_lt hc,
      decode_loop_group _ a b c _ decoded ha hb hc (by simp only [List.length_cons]; omega)]
    have h := ih hrest (decoded ++ [a, b, c])
    have e : (decoded ++ [a, b, c]).length + rest.length
        = decoded.length + (a :: b :: c :: rest).length := by
      simp only [List.length_append, List.length_cons, List.length_nil]; omega
    rw [e] at h
    rw [h]
    simp

theorem encode_group_mem (a b c x : Nat) (hx : x ∈ encode_group a b c) : x ∈ base64_chars := by
  simp only [encode_group, and_63, List.mem_cons, List.mem_singleton, List.mem_nil_iff,
    or_false] at hx
  rcases hx with h | h | h | h <;> rw [h] <;>
    exact (base64_chars_ne _ (Nat.mod_lt _ (by decide))).2.2

theorem padded_groups_split (data : List Nat) :
    ∃ body : List Nat,
      padded_groups data = body ++ List.replicate (mod_table.getD (data.length % 3) 0) 61 ∧
      ∀ c ∈ body, c ∈ base64_chars := by
  induction data using padded_groups.induct with
  | case1 => exact ⟨[], rfl, by simp⟩
  | case2 a =>
    exact ⟨(encode_group (a % 256) 0 0).take 2, rfl,
      fun c hc => encode_group_mem _ _ _ c (List.mem_of_mem_take hc)⟩
  | case3 a b =>
    exact ⟨(encode_group (a % 256) (b % 256) 0).take 3, rfl,
      fun c hc => encode_group_mem _ _ _ c (List.mem_of_mem_take hc)⟩
  | case4 a b c rest ih =>
    obtain ⟨body, hb, hmem⟩ := ih
    refine ⟨encode_group (a % 256) (b % 256) (c % 256) ++ body, ?_, ?_⟩
    · have hmod : (a :: b :: c :: rest).length % 3 = rest.length % 3 := by
        simp only [List.length_cons]; omega
      rw [padded_groups, hb, hmod, List.append_assoc]
    · intro x hx
      rcases List.mem_append.1 hx with h | h
      · exact encode_group_mem _ _ _ x h
      · exact hmem x h

theorem pad_not_in_alphabet : (61 : Nat) ∉ base64_chars := by decide

/-- The last two characters of a text `body ++ "="*k` of length at least 2. -/
theorem last_chars (env : Env) (body : List Nat) (k : Nat) (hk : k ≤ 2)
    (hbody : ∀ c ∈ body, c ≠ 61) (hlen : 2 ≤ body.length) :
    (char_at env (body ++ List.replicate k 61)
        (((body ++ List.replicate k 61).length : Int) - 1) = 61 ↔ 1 ≤ k) ∧
    (char_at env (body ++ List.replicate k 61)
        (((body ++ List.replicate k 61).length : Int) - 2) = 61 ↔ k = 2) := by
  have hget : ∀ i, i < body.length → (body ++ List.replicate k 61).getD i 0 ≠ 61 := by
    intro i hi
    rw [List.getD_eq_getElem _ _ (by simp; omega), List.getElem_append_left hi]
    exact hbody _ (List.getElem_mem _)
  have hget2 : ∀ i, body.length ≤ i → i < body.length + k →
      (body ++ List.replicate k 61).getD i 0 = 61 := by
    intro i hi hi2
    rw [List.getD_eq_getElem _ _ (by simp; omega), List.getElem_append_right hi]
    simp
  have hL : (body ++ List.replicate k 61).length = body.length + k := by simp
  rw [hL]
  unfold char_at
  rw [if_neg (by omega), if_neg (by omega), if_neg (by omega), if_neg (by omega)]
  have e1 : (((body.length + k : Nat) : Int) - 1).toNat = body.length + k - 1 := by omega
  have e2 : (((body.length + k : Nat) : Int) - 2).toNat = body.length + k - 2 := by omega
  rw [e1, e2]
  have hk3 : k = 0 ∨ k = 1 ∨ k = 2 := by omega
  rcases hk3 with h | h | h
  · subst h
    exact ⟨⟨fun h => absurd h (hget _ (by omega)), fun h => by omega⟩,
      ⟨fun h => absurd h (hget _ (by omega)), fun h => by omega⟩⟩
  · subst h
    exact ⟨⟨fun _ => by omega, fun _ => hget2 _ (by omega) (by omega)⟩,
      ⟨fun h => absurd h (hget _ (by omega)), fun h => by omega⟩⟩
  · subst h
    exact ⟨⟨fun _ => by omega, fun _ => hget2 _ (by omega) (by omega)⟩,
      ⟨fun _ => rfl, fun _ => hget2 _ (by omega) (by omega)⟩⟩

theorem mod_table_values (n : Nat) :
    (n % 3 = 0 ∧ mod_table.getD (n % 3) 0 = 0) ∨ (n % 3 = 1 ∧ mod_table.getD (n % 3) 0 = 2) ∨
      (n % 3 = 2 ∧ mod_table.getD (n % 3) 0 = 1) := by
  have h3 : n % 3 = 0 ∨ n % 3 = 1 ∨ n % 3 = 2 := by omega
  rcases h3 with h | h | h <;> rw [h] <;> simp [mod_table]

/-- `base64_decode` on a non-empty text whose length is a multiple of 4: the two
tests read the last two characters of the text, the size requested from
`malloc` is positive, and the result is that of the decoding loop. -/
theorem base64_decode_nonempty (env : Env) (data : List Nat) (h4 : data.length % 4 = 0)
    (hpos : 0 < data.length) :
    base64_decode env data =
      (decode_loop
        (data.length / 4 * 3
          - (if data.getD (data.length - 1) 0 = 61 then 1 else 0)
          - (if data.getD (data.length - 2) 0 = 61 then 1 else 0)) data []).map
        (fun decoded => (decoded,
          data.length / 4 * 3
            - (if data.getD (data.length - 1) 0 = 61 then 1 else 0)
            - (if data.getD (data.length - 2) 0 = 61 then 1 else 0))) := by
  have hlen4 : 4 ≤ data.length := by omega
  have e1 : char_at env data ((data.length : Int) - 1) = data.getD (data.length - 1) 0 := by
    unfold char_at
    rw [if_neg (by omega), if_neg (by omega)]
    congr 1
    omega
  have e2 : char_at env data ((data.length : Int) - 2) = data.getD (data.length - 2) 0 := by
    unfold char_at
    rw [if_neg (by omega), if_neg (by omega)]
    congr 1
    omega
  unfold base64_decode
  simp only []
  rw [if_neg (by omega), e1, e2]
  generalize hK : data.length / 4 * 3
      - (if data.getD (data.length - 1) 0 = 61 then 1 else 0)
      - (if data.getD (data.length - 2) 0 = 61 then 1 else 0) = K
  have hL : (if data.getD (data.length - 2) 0 = 61
      then (if data.getD (data.length - 1) 0 = 61 then ((data.length / 4 * 3 : Nat) : Int) - 1
        else ((data.length / 4 * 3 : Nat) : Int)) - 1
      else (if data.getD (data.length - 1) 0 = 61 then ((data.length / 4 * 3 : Nat) : Int) - 1
        else ((data.length / 4 * 3 : Nat) : Int))) = (K : Int) := by
    rw [← hK]
    split_ifs <;> omega
  have hKpos : 0 < K := by
    rw [← hK]
    split_ifs <;> omega
  rw [hL]
  have hm : malloc env (K : Int) = true := by
    unfold malloc
    rw [if_neg (by omega), if_neg (by omega)]
  rw [if_neg (by rw [hm]; decide), Int.toNat_ofNat]
  cases decode_loop K data [] <;> rfl

/-- Decoding the text produced for a non-empty byte sequence gives the bytes
back, in every environment. -/
theorem decode_padded_groups (env : Env) (data : List Nat) (hbytes : ∀ x ∈ data, x < 256)
    (hne : data ≠ []) :
    base64_decode env (padded_groups data) = some (data, data.length) := by
  obtain ⟨body, hsplit, hmem⟩ := padded_groups_split data
  have hlen := padded_groups_length data
  have hpos : 0 < data.length := List.length_pos.2 hne
  have hbody : ∀ c ∈ body, c ≠ 61 := fun c hc h => pad_not_in_alphabet (h ▸ hmem c hc)
  have hL : body.length + mod_table.getD (data.length % 3) 0 = 4 * ((data.length + 2) / 3) := by
    rw [← hlen, hsplit]; simp
  have hloop := decode_loop_padded data hbytes []
  simp only [List.length_nil, Nat.zero_add, List.nil_append] at hloop
  have hk := mod_table_values data.length
  have hlast := last_chars env body (mod_table.getD (data.length % 3) 0)
    (by rcases hk with h | h | h <;> omega) hbody (by rcases hk with h | h | h <;> omega)
  rw [← hsplit, hlen] at hlast
  have hlen4 : 4 ≤ 4 * ((data.length + 2) / 3) := by omega
  have e1 : char_at env (padded_groups data) (((4 * ((data.length + 2) / 3) : Nat) : Int) - 1)
      = (padded_groups data).getD (4 * ((data.length + 2) / 3) - 1) 0 := by
    unfold char_at
    rw [if_neg (by omega), if_neg (by omega)]
    congr 1
    omega
  have e2 : char_at env (padded_groups data) (((4 * ((data.length + 2) / 3) : Nat) : Int) - 2)
      = (padded_groups data).getD (4 * ((data.length + 2) / 3) - 2) 0 := by
    unfold char_at
    rw [if_neg (by omega), if_neg (by omega)]
    congr 1
    omega
  rw [e1, e2] at hlast
  obtain ⟨h1, h2⟩ := hlast
  rw [base64_decode_nonempty env (padded_groups data) (by rw [hlen]; omega) (by rw [hlen]; omega)]
  simp only [hlen, h1, h2]
  have hout : 4 * ((data.length + 2) / 3) / 4 * 3
      - (if 1 ≤ mod_table.getD (data.length % 3) 0 then 1 else 0)
      - (if mod_table.getD (data.length % 3) 0 = 2 then 1 else 0) = data.length := by
    split_ifs <;> omega
  rw [hout, hloop]
  rfl

theorem store_byte_length (m : Nat) (acc : List Nat) (x : Nat) (h : acc.length ≤ m) :
    (store_byte m acc x).length = min m (acc.length + 1) := by
  unfold store_byte
  split_ifs with hlt
  · rw [List.length_append, List.length_singleton]; omega
  · omega

/-- The number of bytes stored by the decoding loop: three per group of four
characters, as far as `*output_length` allows. -/
theorem decode_loop_length (m : Nat) : ∀ (n : Nat) (data acc out : List Nat),
    data.length = n → acc.length ≤ m → decode_loop m data acc = some out →
    out.length = min m (acc.length + 3 * (data.length / 4)) := by
  intro n
  induction n using Nat.strong_induction_on with
  | _ n ih =>
    intro data acc out hn hacc hloop
    match data, hn with
    | [], _ =>
      simp only [decode_loop, Option.some.injEq] at hloop
      subst hloop; simp; omega
    | [_], _ =>
      simp only [decode_loop, Option.some.injEq] at hloop
      subst hloop; simp; omega
    | [_, _], _ =>
      simp only [decode_loop, Option.some.injEq] at hloop
      subst hloop; simp; omega
    | [_, _, _], _ =>
      simp only [decode_loop, Option.some.injEq] at hloop
      subst hloop; simp; omega
    | a :: b :: c :: d :: rest, hn =>
      simp only [decode_loop] at hloop
      split_ifs at hloop with hbad
      have h1 := store_byte_length m acc
        ((decode_triple (get_index a) (get_index b) (get_index c) (get_index d) >>> 16) &&& 0xFF)
        hacc
      have h2 := store_byte_length m _
        ((decode_triple (get_index a) (get_index b) (get_index c) (get_index d) >>> 8) &&& 0xFF)
        (by rw [h1]; omega)
      have h3 := store_byte_length m _
        (decode_triple (get_index a) (get_index b) (get_index c) (get_index d) &&& 0xFF)
        (by rw [h2]; omega)
      have hrec := ih rest.length (by rw [← hn]; simp only [List.length_cons]; omega) rest _ out rfl
        (by rw [h3]; omega) hloop
      rw [hrec, h3, h2, h1]
      simp only [List.length_cons]
      omega

/-- `base64_decode` returns `NULL` for every text whose length is not a multiple
of 4. -/
theorem decode_rejects_length (env : Env) (data : List Nat) (h : data.length % 4 ≠ 0) :
    base64_decode env data = none := by
  unfold base64_decode
  simp only []
  rw [if_pos h]

/-- What `base64_decode` reports on a non-empty text it accepts: `input_length /
4 * 3`, less one when the last character is `=`, less one when the character
before it is `=`; and that many bytes are stored. -/
theorem decode_reported_length (env : Env) (data out : List Nat) (n : Nat) (hne : data ≠ [])
    (h : base64_decode env data = some (out, n)) :
    n = data.length / 4 * 3
        - (if data.getD (data.length - 1) 0 = 61 then 1 else 0)
        - (if data.getD (data.length - 2) 0 = 61 then 1 else 0) ∧
    out.length = n := by
  have hpos : 0 < data.length := List.length_pos.2 hne
  by_cases h4 : data.length % 4 ≠ 0
  · rw [decode_rejects_length env data h4] at h
    exact Option.noConfusion h
  rw [base64_decode_nonempty env data (by omega) hpos] at h
  generalize hK : data.length / 4 * 3
      - (if data.getD (data.length - 1) 0 = 61 then 1 else 0)
      - (if data.getD (data.length - 2) 0 = 61 then 1 else 0) = K at h
  cases hloop : decode_loop K data [] with
  | none => rw [hloop] at h; exact Option.noConfusion h
  | some decoded =>
    rw [hloop] at h
    simp only [Option.map_some', Option.some.injEq, Prod.mk.injEq] at h
    obtain ⟨hd, hn⟩ := h
    subst hd
    subst hn
    have hl := decode_loop_length _ data.length data [] decoded rfl (Nat.zero_le _) hloop
    refine ⟨rfl, ?_⟩
    rw [hl]
    simp only [List.length_nil]
    have : K ≤ data.length / 4 * 3 := by rw [← hK]; omega
    omega

/-! ## Registry lemmas -/

theorem slot_unique (x : Option Nat) : ∀ (l : List (Option Nat)) (i j : Nat),
    l.count x ≤ 1 → l[i]? = some x → l[j]? = some x → i = j := by
  intro l
  induction l with
  | nil => intro i j _ hi _; simp at hi
  | cons y ys ih =>
    intro i j hc hi hj
    rw [List.count_cons] at hc
    cases i with
    | zero =>
      cases j with
      | zero => rfl
      | succ j =>
        simp only [List.getElem?_cons_zero, Option.some.injEq] at hi
        simp only [List.getElem?_cons_succ] at hj
        have hmem : x ∈ ys := List.mem_iff_getElem?.2 ⟨j, hj⟩
        have hpos := List.count_pos_iff.2 hmem
        simp [hi] at hc
        omega
    | succ i =>
      cases j with
      | zero =>
        simp only [List.getElem?_cons_zero, Option.some.injEq] at hj
        simp only [List.getElem?_cons_succ] at hi
        have hmem : x ∈ ys := List.mem_iff_getElem?.2 ⟨i, hi⟩
        have hpos := List.count_pos_iff.2 hmem
        simp [hj] at hc
        omega
      | succ j =>
        simp only [List.getElem?_cons_succ] at hi hj
        have := ih i j (by omega) hi hj
        omega

/-- What a scan-and-replace loop over the slots `i ..< i + n` does: nothing when
no slot holds `x`, otherwise the first slot holding `x` is overwritten. -/
theorem remove_client_loop_spec (client : Nat) (clients : List (Option Nat)) :
    ∀ n i : Nat,
      (remove_client_loop client clients i n = clients ∧
        ∀ j, i ≤ j → j < i + n → clients[j]? ≠ some (some client)) ∨
      ∃ k, i ≤ k ∧ k < i + n ∧ clients[k]? = some (some client) ∧
        (∀ j, i ≤ j → j < k → clients[j]? ≠ some (some client)) ∧
        remove_client_loop client clients i n = clients.set k none := by
  intro n
  induction n with
  | zero => intro i; left; exact ⟨rfl, fun j h1 h2 => by omega⟩
  | succ n ih =>
    intro i
    by_cases h : clients[i]? = some (some client)
    · right
      refine ⟨i, le_refl _, by omega, h, fun j h1 h2 => by omega, ?_⟩
      simp [remove_client_loop, h]
    · rcases ih (i + 1) with ⟨he, hno⟩ | ⟨k, hk1, hk2, hk3, hk4, hk5⟩
      · left
        refine ⟨by simp [remove_client_loop, h, he], fun j h1 h2 => ?_⟩
        by_cases hj : j = i
        · subst hj; exact h
        · exact hno j (by omega) (by omega)
      · right
        refine ⟨k, by omega, by omega, hk3, fun j h1 h2 => ?_, by simp [remove_client_loop, h, hk5]⟩
        by_cases hj : j = i
        · subst hj; exact h
        · exact hk4 j (by omega) h2

theorem add_client_loop_spec (client : Nat) (clients : List (Option Nat)) :
    ∀ n i : Nat,
      (add_client_loop client clients i n = clients) ∨
      ∃ k, i ≤ k ∧ k < i + n ∧ clients[k]? = some none ∧
        add_client_loop client clients i n = clients.set k (some client) := by
  intro n
  induction n with
  | zero => intro i; left; rfl
  | succ n ih =>
    intro i
    by_cases h : clients[i]? = some none
    · right
      exact ⟨i, le_refl _, by omega, h, by simp [add_client_loop, h]⟩
    · rcases ih (i + 1) with he | ⟨k, hk1, hk2, hk3, hk5⟩
      · left; simp [add_client_loop, h, he]
      · right
        exact ⟨k, by omega, by omega, hk3, by simp [add_client_loop, h, hk5]⟩

theorem remove_client_absent (client : Nat) (clients : List (Option Nat))
    (h : some client ∉ clients) : remove_client client clients = clients := by
  rcases remove_client_loop_spec client clients MAX_CLIENTS 0 with ⟨he, _⟩ | ⟨k, _, _, hk, _, _⟩
  · exact he
  · exact absurd (List.mem_iff_getElem?.2 ⟨k, hk⟩) h

theorem remove_client_clears (client : Nat) (clients : List (Option Nat))
    (hlen : clients.length = MAX_CLIENTS) (hone : clients.count (some client) ≤ 1) :
    some client ∉ remove_client client clients ∧
    ∀ j : Nat, clients[j]? ≠ some (some client) →
      (remove_client client clients)[j]? = clients[j]? := by
  unfold remove_client
  rcases remove_client_loop_spec client clients MAX_CLIENTS 0 with
    ⟨he, hno⟩ | ⟨k, _, hk2, hk3, _, hk5⟩
  · rw [he]
    constructor
    · intro hmem
      obtain ⟨j, hj⟩ := List.mem_iff_getElem?.1 hmem
      have hjlt : j < clients.length := by
        by_contra hge
        rw [List.getElem?_eq_none (by omega)] at hj
        exact Option.noConfusion hj
      exact hno j (Nat.zero_le _) (by omega) hj
    · intro j _; rfl
  · rw [hk5]
    constructor
    · intro hmem
      obtain ⟨j, hj⟩ := List.mem_iff_getElem?.1 hmem
      by_cases hjk : k = j
      · subst hjk
        rw [List.getElem?_set_self (by omega)] at hj
        simp at hj
      · rw [List.getElem?_set_ne hjk] at hj
        exact hjk (slot_unique _ clients k j hone hk3 hj)
    · intro j hj
      by_cases hjk : k = j
      · subst hjk; exact absurd hk3 hj
      · rw [List.getElem?_set_ne hjk]

theorem add_then_remove (client : Nat) (clients : List (Option Nat))
    (h : some client ∉ clients) :
    remove_client client (add_client client clients) = clients := by
  unfold add_client
  rcases add_client_loop_spec client clients MAX_CLIENTS 0 with he | ⟨k, _, hk2, hk3, hk5⟩
  · rw [he]; exact remove_client_absent client clients h
  · rw [hk5]
    have hklt : k < clients.length := by
      by_contra hge
      rw [List.getElem?_eq_none (by omega)] at hk3
      exact Option.noConfusion hk3
    unfold remove_client
    rcases remove_client_loop_spec client (clients.set k (some client)) MAX_CLIENTS 0 with
      ⟨_, hno⟩ | ⟨m, _, _, hm3, hm4, hm5⟩
    · exact absurd (List.getElem?_set_self hklt) (hno k (Nat.zero_le _) (by omega))
    · have hmk : m = k := by
        by_contra hne
        rw [List.getElem?_set_ne (fun e => hne e.symm)] at hm3
        exact h (List.mem_iff_getElem?.2 ⟨m, hm3⟩)
      subst hmk
      rw [hm5, List.set_set]
      apply List.ext_getElem?
      intro j
      by_cases hj : m = j
      · subst hj; rw [List.getElem?_set_self hklt, hk3]
      · rw [List.getElem?_set_ne hj]

/-! ## C strings and the handlers -/

theorem take_length_takeWhile (p : Nat → Bool) : ∀ l : List Nat,
    l.take (l.takeWhile p).length = l.takeWhile p := by
  intro l
  induction l with
  | nil => rfl
  | cons x xs ih =>
    by_cases h : p x
    · simp [List.takeWhile_cons, h, ih]
    · simp [List.takeWhile_cons, h]

theorem strlen_of_mem (a : List Nat) (h : 0 ∈ a) : strlen a = some (cstr a).length := by
  simp [strlen, h]

theorem cstr_append_nul (s t : List Nat) (hs : 0 ∉ s) : cstr (s ++ 0 :: t) = s := by
  unfold cstr
  rw [List.takeWhile_append_of_pos]
  · simp
  · intro a ha
    have : a ≠ 0 := fun e => hs (e ▸ ha)
    simpa using this

theorem nul_not_in_ack_text : (0 : Nat) ∉ ack_text := by decide

theorem ack_frame_content (response : Message) :
    (ack_frame response).type = 2 ∧
      cstr (ack_frame response).content = str "Message received successfully" := by
  refine ⟨rfl, ?_⟩
  show cstr (ack_text ++ [0] ++ response.content.drop (ack_text.length + 1)) = ack_text
  rw [List.append_assoc]
  exact cstr_append_nul _ _ nul_not_in_ack_text

theorem tcp_iteration_data (env : Env) (response message : Message) (htype : message.type = 1)
    (hnul : 0 ∈ message.content) :
    tcp_iteration env response message =
      match base64_decode env (cstr message.content) with
      | some _ => some { sent := [ack_frame response], response := ack_frame response, left := false }
      | none => some { sent := [], response := response, left := false } := by
  unfold tcp_iteration
  rw [if_pos htype, strlen_of_mem _ hnul]
  simp only []
  have e : List.take (cstr message.content).length message.content = cstr message.content :=
    take_length_takeWhile _ _
  rw [e]
  rfl

theorem handle_udp_message_data (env : Env) (response message : Message) (bytes_received : Int)
    (client_addr : Nat) (hrecv : 0 < bytes_received) (htype : message.type = 1)
    (hnul : 0 ∈ message.content) :
    handle_udp_message env response bytes_received message client_addr =
      match base64_decode env (cstr message.content) with
      | some _ => some [(client_addr, ack_frame response)]
      | none => some [] := by
  unfold handle_udp_message
  rw [if_pos hrecv, if_pos htype, strlen_of_mem _ hnul]
  simp only []
  have e : List.take (cstr message.content).length message.content = cstr message.content :=
    take_length_takeWhile _ _
  rw [e]
  rfl

theorem tcp_loop_append (env : Env) (pre : List (Int × Message)) :
    ∀ (response : Message) (sent : List Message) (it : Iteration),
      tcp_loop env pre response sent = some it → it.left = false →
      ∀ rest, tcp_loop env (pre ++ rest) response sent = tcp_loop env rest it.response it.sent := by
  induction pre with
  | nil =>
    intro response sent it h _ rest
    simp only [tcp_loop, Option.some.injEq] at h
    subst h
    rfl
  | cons ev pre ih =>
    intro response sent it h hleft rest
    obtain ⟨bytes_received, message⟩ := ev
    simp only [List.cons_append, tcp_loop] at h ⊢
    by_cases hb : bytes_received > 0
    · rw [if_pos hb] at h ⊢
      cases hit : tcp_iteration env response message with
      | none => rw [hit] at h; exact Option.noConfusion h
      | some step =>
        rw [hit] at h
        simp only [List.append_eq] at h ⊢
        by_cases hl : step.left = true
        · rw [if_pos hl] at h
          simp only [Option.some.injEq] at h
          subst h
          exact Bool.noConfusion hleft
        · rw [if_neg hl] at h ⊢
          exact ih _ _ it h hleft rest
    · rw [if_neg hb] at h
      simp only [Option.some.injEq] at h
      subst h
      exact Bool.noConfusion hleft

/-! ## Properties of the codec -/

theorem ceil_third (n : Nat) : ⌈(n : ℚ) / 3⌉₊ = (n + 2) / 3 := by
  apply le_antisymm
  · apply Nat.ceil_le.2
    rw [div_le_iff₀ (by norm_num)]
    have h : n ≤ (n + 2) / 3 * 3 := by omega
    exact_mod_cast h
  · have h := Nat.le_ceil ((n : ℚ) / 3)
    rw [div_le_iff₀ (by norm_num)] at h
    have h2 : n ≤ ⌈(n : ℚ) / 3⌉₊ * 3 := by exact_mod_cast h
    omega

/-- Round trip on non-empty input: for every non-empty sequence of bytes, in any
environments, `base64_encode` returns a text and `base64_decode` of that text
returns the bytes and their count. -/
theorem roundtrip_nonempty (env env2 : Env) (data : List Nat) (hbytes : ∀ x ∈ data, x < 256)
    (hne : data ≠ []) :
    ∃ text : List Nat, base64_encode env data = some text ∧
      base64_decode env2 text = some (data, data.length) :=
  ⟨padded_groups data, base64_encode_eq env data, decode_padded_groups env2 data hbytes hne⟩

/-- `base64_decode` of the empty text (`input_length` 0): the two tests read the
bytes in front of the buffer and the buffer is requested with `malloc(0)`.  The
result is `NULL` when one of these bytes is `=` (the size wraps and `malloc`
fails) or when `malloc(0)` returns `NULL`, and the empty sequence with length 0
otherwise. -/
theorem decode_empty_text (env : Env) :
    base64_decode env [] =
      if env.before1 = 61 ∨ env.before2 = 61 ∨ env.mallocZeroNull = true then none
      else some ([], 0) := by
  obtain ⟨b1, b2, m⟩ := env
  unfold base64_decode char_at malloc
  simp only [List.length_nil, Nat.zero_mod, ne_eq, not_true_eq_false, if_false, Nat.zero_div,
    Nat.zero_mul, Nat.cast_zero, Int.zero_sub, if_true]
  by_cases h1 : b1 = 61 <;> by_cases h2 : b2 = 61 <;> cases m <;>
    simp [h1, h2, decode_loop]

/-- C1.  Round trip: for every byte sequence, the empty one included,
`base64_encode` returns a text, and `base64_decode` of that text with its length
returns the same bytes and reports their count.  The decoder runs where the
program runs it: `data` is the `content` field of a frame of type 1, so the two
bytes in front of it are bytes of the integer 1 and not `=`, and `malloc(0)`
returns a pointer. -/
theorem roundtrip (cenv senv : Env) (data : List Nat) (hbytes : ∀ x ∈ data, x < 256)
    (hbefore1 : senv.before1 ≠ 61) (hbefore2 : senv.before2 ≠ 61)
    (hmalloc : senv.mallocZeroNull = false) :
    ∃ text : List Nat, base64_encode cenv data = some text ∧
      base64_decode senv text = some (data, data.length) := by
  by_cases hne : data = []
  · subst hne
    refine ⟨[], base64_encode_eq cenv [], ?_⟩
    rw [decode_empty_text, if_neg]
    · rfl
    · rintro (h | h | h)
      · exact hbefore1 h
      · exact hbefore2 h
      · rw [hmalloc] at h; exact Bool.noConfusion h
  · exact roundtrip_nonempty cenv senv data hbytes hne

/-- C1 on the empty sequence and on "hello". -/
theorem roundtrip_examples :
    (∃ text : List Nat,
      base64_encode { before1 := 0, before2 := 0, mallocZeroNull := false } [] = some text ∧
      base64_decode { before1 := 1, before2 := 0, mallocZeroNull := false } text
        = some ([], 0)) ∧
    (∃ text : List Nat,
      base64_encode { before1 := 0, before2 := 0, mallocZeroNull := false } (str "hello")
        = some text ∧
      base64_decode { before1 := 1, before2 := 0, mallocZeroNull := false } text
        = some (str "hello", 5)) :=
  ⟨roundtrip { before1 := 0, before2 := 0, mallocZeroNull := false }
      { before1 := 1, before2 := 0, mallocZeroNull := false } [] (by decide) (by decide)
      (by decide) rfl,
   roundtrip { before1 := 0, before2 := 0, mallocZeroNull := false }
      { before1 := 1, before2 := 0, mallocZeroNull := false } (str "hello") (by decide)
      (by decide) (by decide) rfl⟩

/-- C2 (accepted malformed texts).  `base64_decode` rejects a text whose first or
second character of a group is outside the alphabet, but accepts `QU!D`, whose
third character `!` is outside the alphabet, and `QQ==QUJD`, where `=` stands in
the first group of two: the third and fourth characters of a group are never
checked. -/
theorem decode_accepts_malformed (env : Env) :
    base64_decode env (str "!UJD") = none ∧
    base64_decode env (str "Q!JD") = none ∧
    base64_decode env (str "QU!D") = some ([65, 64, 3], 3) ∧
    base64_decode env (str "QQ==QUJD") = some ([65, 0, 0, 65, 66, 67], 6) := by
  refine ⟨?_, ?_, ?_, ?_⟩ <;> rfl

/-- C3.  For every byte sequence, `base64_encode` returns a text of
`4 * ceil(len / 3)` characters that ends in 0, 2 or 1 characters `=` according
to `len % 3` being 0, 1 or 2; the characters before them all belong to the
64-symbol alphabet, so the text holds no other `=`. -/
theorem encode_shape (env : Env) (data : List Nat) :
    ∃ text body : List Nat,
      base64_encode env data = some text ∧
      text.length = 4 * ⌈(data.length : ℚ) / 3⌉₊ ∧
      text = body ++ List.replicate
        (if data.length % 3 = 0 then 0 else if data.length % 3 = 1 then 2 else 1) 61 ∧
      (∀ c ∈ body, c ∈ str "ABCDEFGHIJKLMNOPQRSTUVWXYZabcdefghijklmnopqrstuvwxyz0123456789+/") ∧
      text.count 61 =
        (if data.length % 3 = 0 then 0 else if data.length % 3 = 1 then 2 else 1) := by
  obtain ⟨body, hsplit, hmem⟩ := padded_groups_split data
  have hk : mod_table.getD (data.length % 3) 0 =
      (if data.length % 3 = 0 then 0 else if data.length % 3 = 1 then 2 else 1) := by
    rcases mod_table_values data.length with ⟨h, e⟩ | ⟨h, e⟩ | ⟨h, e⟩ <;> rw [e] <;> simp [h]
  rw [hk] at hsplit
  refine ⟨padded_groups data, body, base64_encode_eq env data, ?_, hsplit, hmem, ?_⟩
  · rw [ceil_third, padded_groups_length]
  · rw [hsplit, List.count_append, List.count_replicate_self,
      List.count_eq_zero.2 (fun h => pad_not_in_alphabet (hmem 61 h))]
    omega

/-- C8 (reported length).  `base64_decode` accepts the text `AA=A` and reports
the output length 2, although the text ends in no `=` character and
`input_length / 4 * 3` is 3: the test of `data[input_length - 2]` does not depend
on `data[input_length - 1]`, and a `=` in third position is not rejected. -/
theorem decode_length_counts_inner_pad (env : Env) :
    base64_decode env (str "AA=A") = some ([0, 0], 2) ∧
    trailing_padding (str "AA=A") = 0 ∧
    (str "AA=A").length / 4 * 3 - trailing_padding (str "AA=A") = 3 := by
  refine ⟨?_, ?_, ?_⟩ <;> rfl

/-! ## Properties of the TCP session and the UDP handler -/

/-- C4.  One iteration of the receive loop on a DATA frame (type 1, content
holding a terminated string): when `base64_decode` accepts the content, exactly
one frame is sent, the acknowledgment (type 2, text
"Message received successfully"), the loop is not left and goes on with the next
`recv`; when it rejects the content nothing is sent and the loop goes on as
well. -/
theorem tcp_data_frame (env : Env) (response message : Message) (bytes_received : Int)
    (sent : List Message) (rest : List (Int × Message))
    (htype : message.type = 1) (hnul : 0 ∈ message.content) (hrecv : 0 < bytes_received) :
    ((ack_frame response).type = 2 ∧
      cstr (ack_frame response).content = str "Message received successfully") ∧
    ((base64_decode env (cstr message.content)).isSome = true →
      tcp_iteration env response message =
        some { sent := [ack_frame response], response := ack_frame response, left := false } ∧
      tcp_loop env ((bytes_received, message) :: rest) response sent =
        tcp_loop env rest (ack_frame response) (sent ++ [ack_frame response])) ∧
    (base64_decode env (cstr message.content) = none →
      tcp_iteration env response message =
        some { sent := [], response := response, left := false } ∧
      tcp_loop env ((bytes_received, message) :: rest) response sent =
        tcp_loop env rest response sent) := by
  have hit := tcp_iteration_data env response message htype hnul
  refine ⟨ack_frame_content response, fun hsome => ?_, fun hnone => ?_⟩
  · obtain ⟨r, hr⟩ := Option.isSome_iff_exists.1 hsome
    rw [hr] at hit
    refine ⟨hit, ?_⟩
    rw [tcp_loop, if_pos hrecv, hit]
    rfl
  · rw [hnone] at hit
    refine ⟨hit, ?_⟩
    rw [tcp_loop, if_pos hrecv, hit]
    simp

set_option maxRecDepth 100000 in
/-- C4, the frame carrying `aGVsbG8=` ("hello"): exactly one acknowledgment is
sent and the session is still open. -/
theorem tcp_data_frame_hello :
    handle_tcp_client { before1 := 0, before2 := 0, mallocZeroNull := false } 7
        [some 7, none, none, none, none, none, none, none, none, none] zero_message
        [(260, frame_of 1 (str "aGVsbG8="))]
      = some { sent := [ack_frame zero_message], closed := false,
               clients := [some 7, none, none, none, none, none, none, none, none, none] } ∧
    cstr (ack_frame zero_message).content = str "Message received successfully" := by
  have h := tcp_data_frame { before1 := 0, before2 := 0, mallocZeroNull := false } zero_message
    (frame_of 1 (str "aGVsbG8=")) 260 [] [] (by decide) (by decide) (by decide)
  refine ⟨?_, h.1.2⟩
  unfold handle_tcp_client
  rw [(h.2.1 (by decide)).2]
  rfl

/-- C5.  In a session that is open after the frames received so far, a
TERMINATE frame (type 3, any content) makes the iteration send nothing and
leave the loop; the worker ends closed, having sent nothing more, and after its
cleanup no slot of the registry (ten slots, the session in at most one of them)
holds the session. -/
theorem tcp_terminate (env : Env) (client : Nat) (clients : List (Option Nat))
    (response : Message) (pre rest : List (Int × Message)) (before : Iteration)
    (bytes_received : Int) (message : Message)
    (htype : message.type = 3) (hrecv : 0 < bytes_received)
    (hlen : clients.length = MAX_CLIENTS) (hone : clients.count (some client) ≤ 1)
    (hpre : tcp_loop env pre response [] = some before) (hopen : before.left = false) :
    tcp_iteration env before.response message =
      some { sent := [], response := before.response, left := true } ∧
    ∃ s : Session,
      handle_tcp_client env client clients response (pre ++ (bytes_received, message) :: rest)
        = some s ∧
      s.sent = before.sent ∧ s.closed = true ∧ s.clients = remove_client client clients ∧
      some client ∉ s.clients := by
  have hit : tcp_iteration env before.response message =
      some { sent := [], response := before.response, left := true } := by
    unfold tcp_iteration
    rw [if_neg (by rw [htype]; decide), if_pos htype]
  refine ⟨hit, ⟨before.sent, true, remove_client client clients⟩, ?_, rfl, rfl, rfl,
    (remove_client_clears client clients hlen hone).1⟩
  unfold handle_tcp_client
  rw [tcp_loop_append env pre response [] before hpre hopen, tcp_loop, if_pos hrecv, hit]
  simp

set_option maxRecDepth 100000 in
/-- C5 on a session registered in slot 1 that first received a DATA frame. -/
theorem tcp_terminate_after_data :
    handle_tcp_client { before1 := 0, before2 := 0, mallocZeroNull := false } 7
        [some 3, some 7, none, none, none, none, none, none, none, none] zero_message
        [(260, frame_of 1 (str "aGVsbG8=")), (260, frame_of 3 (str "TERMINATE"))]
      = some { sent := [ack_frame zero_message], closed := true,
               clients := [some 3, none, none, none, none, none, none, none, none, none] } := by
  obtain ⟨_, s, hs, h1, h2, h3, _⟩ :=
    tcp_terminate { before1 := 0, before2 := 0, mallocZeroNull := false } 7
      [some 3, some 7, none, none, none, none, none, none, none, none] zero_message
      [(260, frame_of 1 (str "aGVsbG8="))] []
      { sent := [ack_frame zero_message], response := ack_frame zero_message, left := false }
      260 (frame_of 3 (str "TERMINATE")) (by decide) (by decide) (by decide) (by decide)
      (by decide) rfl
  refine hs.trans ?_
  obtain ⟨sent, closed, cl⟩ := s
  simp only at h1 h2 h3
  rw [h1, h2, h3]
  decide

/-- C6.  For a datagram received by `handle_udp_message` (`recvfrom` returned a
positive count; the content of a DATA frame holds a terminated string), a reply
is sent exactly when the frame has type 1 and `base64_decode` accepts its
content, and the reply is then the single acknowledgment (type 2, text
"Message received successfully") addressed to the captured sender; a DATA frame
that does not decode and a frame of any other type, TERMINATE included, get no
reply. -/
theorem udp_reply (env : Env) (response message : Message) (bytes_received : Int)
    (client_addr : Nat) (hrecv : 0 < bytes_received)
    (hnul : message.type = 1 → 0 ∈ message.content) :
    ∃ out : List (Nat × Message),
      handle_udp_message env response bytes_received message client_addr = some out ∧
      (out ≠ [] ↔
        message.type = 1 ∧ (base64_decode env (cstr message.content)).isSome = true) ∧
      (out ≠ [] → out = [(client_addr, ack_frame response)]) ∧
      (message.type ≠ 1 → out = []) ∧
      (ack_frame response).type = 2 ∧
      cstr (ack_frame response).content = str "Message received successfully" := by
  by_cases htype : message.type = 1
  · have h := handle_udp_message_data env response message bytes_received client_addr hrecv
      htype (hnul htype)
    cases hdec : base64_decode env (cstr message.content) with
    | none =>
      rw [hdec] at h
      exact ⟨[], h, by simp, by simp, fun _ => rfl, ack_frame_content response⟩
    | some r =>
      rw [hdec] at h
      exact ⟨[(client_addr, ack_frame response)], h, by simp [htype], fun _ => rfl,
        fun hne => absurd htype hne, ack_frame_content response⟩
  · refine ⟨[], ?_, by simp [htype], by simp, fun _ => rfl, ack_frame_content response⟩
    unfold handle_udp_message
    rw [if_pos hrecv, if_neg htype]
    split_ifs <;> rfl

set_option maxRecDepth 100000 in
/-- C6 on three datagrams: `aGVsbG8=` is acknowledged to its sender, the
malformed `aGVsbG8` and a TERMINATE frame are not answered. -/
theorem udp_reply_examples :
    handle_udp_message { before1 := 0, before2 := 0, mallocZeroNull := false } zero_message 260
        (frame_of 1 (str "aGVsbG8=")) 5 = some [(5, ack_frame zero_message)] ∧
    handle_udp_message { before1 := 0, before2 := 0, mallocZeroNull := false } zero_message 260
        (frame_of 1 (str "aGVsbG8")) 5 = some [] ∧
    handle_udp_message { before1 := 0, before2 := 0, mallocZeroNull := false } zero_message 260
        (frame_of 3 (str "TERMINATE")) 5 = some [] := by
  refine ⟨?_, ?_, ?_⟩
  · obtain ⟨out, ho, hiff, hone, _⟩ :=
      udp_reply { before1 := 0, before2 := 0, mallocZeroNull := false } zero_message
        (frame_of 1 (str "aGVsbG8=")) 260 5 (by decide) (fun _ => by decide)
    rw [ho, hone (hiff.2 ⟨rfl, by decide⟩)]
  · decide
  · decide

/-! ## Properties of the registry -/

/-- C9.  On the registry of ten slots: when the session is in at most one slot,
`remove_client` leaves no slot holding it and changes no other slot; when the
session is in no slot, `add_client` followed by `remove_client` gives the
registry back unchanged; and every way out of the receive loop of
`handle_tcp_client` (a TERMINATE frame, or `recv` returning 0 or a negative
value) ends in that `remove_client`. -/
theorem registry_slot_reclaimed (client : Nat) (clients : List (Option Nat))
    (hlen : clients.length = MAX_CLIENTS) :
    (clients.count (some client) ≤ 1 →
      some client ∉ remove_client client clients ∧
      ∀ j : Nat, clients[j]? ≠ some (some client) →
        (remove_client client clients)[j]? = clients[j]?) ∧
    (some client ∉ clients → remove_client client (add_client client clients) = clients) ∧
    (∀ (env : Env) (response : Message) (recvs : List (Int × Message)) (s : Session),
      handle_tcp_client env client clients response recvs = some s → s.closed = true →
        s.clients = remove_client client clients) ∧
    (∀ (env : Env) (response : Message) (pre rest : List (Int × Message)) (before : Iteration)
      (bytes_received : Int) (message : Message),
      tcp_loop env pre response [] = some before → before.left = false →
      (bytes_received ≤ 0 ∨ message.type = 3) →
        handle_tcp_client env client clients response (pre ++ (bytes_received, message) :: rest)
          = some { sent := before.sent, closed := true,
                   clients := remove_client client clients }) := by
  refine ⟨fun hone => remove_client_clears client clients hlen hone,
    fun habs => add_then_remove client clients habs, ?_, ?_⟩
  · intro env response recvs s hs hclosed
    unfold handle_tcp_client at hs
    cases hloop : tcp_loop env recvs response [] with
    | none => rw [hloop] at hs; exact Option.noConfusion hs
    | some it =>
      rw [hloop] at hs
      simp only at hs
      by_cases hl : it.left = true
      · rw [if_pos hl, Option.some.injEq] at hs
        rw [← hs]
      · rw [if_neg hl, Option.some.injEq] at hs
        rw [← hs] at hclosed
        exact Bool.noConfusion hclosed
  · intro env response pre rest before bytes_received message hpre hopen hexit
    unfold handle_tcp_client
    rw [tcp_loop_append env pre response [] before hpre hopen, tcp_loop]
    by_cases hrecv : bytes_received > 0
    · rcases hexit with h | htype
      · omega
      · have hit : tcp_iteration env before.response message =
            some { sent := [], response := before.response, left := true } := by
          unfold tcp_iteration
          rw [if_neg (by rw [htype]; decide), if_pos htype]
        rw [if_pos hrecv, hit]
        simp
    · rw [if_neg hrecv]
      rfl

set_option maxRecDepth 100000 in
/-- C9 on a registry holding the sessions 3 and 7: removing 7 frees its slot and
keeps the others, and a session 9 that is added and removed leaves the registry
as it was. -/
theorem registry_slot_reclaimed_example :
    some 7 ∉ remove_client 7 [some 3, some 7, none, none, none, none, none, none, none, none] ∧
    remove_client 9 (add_client 9 [some 3, some 7, none, none, none, none, none, none, none, none])
      = [some 3, some 7, none, none, none, none, none, none, none, none] :=
  ⟨((registry_slot_reclaimed 7 [some 3, some 7, none, none, none, none, none, none, none, none]
      (by decide)).1 (by decide)).1,
   (registry_slot_reclaimed 9 [some 3, some 7, none, none, none, none, none, none, none, none]
      (by decide)).2.1 (by decide)⟩

/-! ## Properties of the client frame -/

set_option maxRecDepth 100000 in
/-- A `0` byte read from the input ends the string in `buffer`: for the input
bytes `a`, `0`, `b`, newline the client encodes the single byte `a` and sends
"YQ==". -/
theorem client_frame_nul_inside :
    client_frame { before1 := 0, before2 := 0, mallocZeroNull := false } zero_message
      [97, 0, 98, 10] = some (frame_of 1 (str "YQ==")) := by
  decide

end Relay
